import Mathlib

/-!
Shallow embedding of `src/main.rs` of the `new-post` command-line helper.

The program parses a title, tags and an optional editor override, locates a
`content` directory, writes a front-matter file named after the sanitized
title, and spawns an editor on it.  Pure string manipulation is embedded
directly; the filesystem, the environment and the child process are modelled
by explicit inputs (`FsView`, `Env`, spawn/write outcomes) threaded through
`mainRun`, which also records the externally visible write/spawn events.
-/

namespace NewPost

/-- The single quote character `'` (code 39). -/
def squoteChar : Char := Char.ofNat 39

/-- The double quote character (code 34). -/
def dquoteChar : Char := Char.ofNat 34

/-- The left parenthesis character (code 40). -/
def lparenChar : Char := Char.ofNat 40

/-- The right parenthesis character (code 41). -/
def rparenChar : Char := Char.ofNat 41

/-- A one-character string holding a double quote. -/
def dquoteStr : String := ⟨[dquoteChar]⟩

/-- The pattern `['\x27', '\x22', '(', ')']` passed to `str::replace` in
`create_safe_file_name`. -/
def unsafeChars : List Char := [squoteChar, dquoteChar, lparenChar, rparenChar]

/-- Character-by-character embedding of `title.replace(&['\x27', '\x22', '(', ')'], "")`:
each character matching the pattern is replaced by the empty string, every
other character is copied through. -/
def removeUnsafeChars : List Char → List Char
  | [] => []
  | c :: cs => if c ∈ unsafeChars then removeUnsafeChars cs else c :: removeUnsafeChars cs

/-- Embedding of `create_safe_file_name` from `src/main.rs`. -/
def create_safe_file_name (title : String) : String :=
  ⟨removeUnsafeChars title.data⟩

/-- The separator `", "` used by `.join(", ")`, as characters. -/
def sepChars : List Char := [',', ' ']

/-- Embedding of `format!("\x22{}\x22", s)` applied to one tag. -/
def quoteChars (t : List Char) : List Char := dquoteChar :: (t ++ [dquoteChar])

/-- Embedding of `Vec::join(sep)`: the pieces in order with `sep` between
consecutive pieces, nothing for the empty vector. -/
def joinSep (sep : List Char) : List (List Char) → List Char
  | [] => []
  | [x] => x
  | x :: xs => x ++ sep ++ joinSep sep xs

/-- The characters of the rendered `tags = [...]` interior:
`tags.iter().map(|s| format!("\x22{}\x22", s)).collect::<Vec<_>>().join(", ")`. -/
def renderTagsChars (tags : List (List Char)) : List Char :=
  joinSep sepChars (tags.map quoteChars)

/-- String-level wrapper of `renderTagsChars`. -/
def renderTags (tags : List String) : String :=
  ⟨renderTagsChars (tags.map String.data)⟩

/-- Embedding of the `format!` template of `write_file_contents`:
`+++\ntitle = "{title}"\ndate = {date}\n[taxonomies]\ntags = [{tags}]\n+++\n`
with the raw title, the rendered date string and the joined quoted tags
substituted. -/
def file_contents (title dateStr : String) (tags : List String) : String :=
  "+++\ntitle = " ++ dquoteStr ++ title ++ dquoteStr ++ "\ndate = " ++ dateStr ++
    "\n[taxonomies]\ntags = [" ++ renderTags tags ++ "]\n+++\n"

/-- The error type of `src/main.rs`.  The Rust struct carries one message
string; the two constructor functions `from_error` (wrapping an underlying
OS/filesystem cause) and `from_string` (semantic not-found failures) are kept
apart here, matching the spec's `IoError` / `NotFoundError` taxonomy. -/
inductive Error where
  | ioError (message : String)
  | notFoundError (message : String)
deriving DecidableEq

/-- Embedding of `Error::from_error`: formats `"{}: {}"` with message and cause. -/
def Error.from_error (message : String) (cause : String) : Error :=
  .ioError (message ++ ": " ++ cause)

/-- Embedding of `Error::from_string`. -/
def Error.from_string (message : String) : Error :=
  .notFoundError message

deriving instance DecidableEq for Except

/-- One entry produced by `read_dir`: its file name, and the result of its
`file_type()` query (`Ok is_dir` or an error). -/
structure DirEntry where
  name : String
  fileType : Except String Bool
deriving DecidableEq

/-- The filesystem as seen by `locate_content_directory`: the outcome of
`current_dir()` (a path as a list of components) and the outcome of
`read_dir()` (a listing whose individual entries may themselves be errors). -/
structure FsView where
  cwdResult : Except String (List String)
  readDirResult : Except String (List (Except String DirEntry))
deriving DecidableEq

/-- The message of the not-found error of `locate_content_directory`:
`Failed to find a directory named 'content'`. -/
def contentNotFoundMessage : String :=
  "Failed to find a directory named " ++ ⟨[squoteChar]⟩ ++ "content" ++ ⟨[squoteChar]⟩

/-- The `filter_map` closure of `locate_content_directory`: keep an entry only
when it is `Ok` and its `file_type()` is `Ok` and reports a directory. -/
def keepOkDir (c : Except String DirEntry) : Option DirEntry :=
  match c with
  | .ok de =>
    match de.fileType with
    | .ok isDir => if isDir then some de else none
    | .error _ => none
  | .error _ => none

/-- Embedding of `locate_content_directory` from `src/main.rs`: return the
current directory when its own name is `content`; otherwise scan the children,
keep the readable directory entries, and take the first one named `content`;
otherwise fail with the not-found error. -/
def locate_content_directory (fs : FsView) : Except Error (List String) :=
  match fs.cwdResult with
  | .error e => .error (Error.from_error "Failed to get current working directory" e)
  | .ok current_dir =>
    if current_dir.getLast? = some "content" then
      .ok current_dir
    else
      match fs.readDirResult with
      | .error e =>
        .error (Error.from_error "Failed to get children of current working directory" e)
      | .ok children =>
        match (children.filterMap keepOkDir).find? (fun de => de.name = "content") with
        | some de => .ok (current_dir ++ [de.name])
        | none => .error (Error.from_string contentNotFoundMessage)

/-- The environment variables consulted by `get_editor_command_string`:
`env::var` yields the value when the variable is present (and valid unicode),
modelled as `some`, and an error otherwise, modelled as `none`. -/
structure Env where
  visual : Option String
  editorVar : Option String
deriving DecidableEq

/-- The message of the not-found error of `get_editor_command_string`. -/
def noEditorMessage : String := "Unable to find a valid path to an editor"

/-- Embedding of `get_editor_command_string` from `src/main.rs`: the explicit
flag value if present, else `VISUAL`, else `EDITOR`, else a not-found error. -/
def get_editor_command_string (editor_path : Option String) (env : Env) :
    Except Error String :=
  match editor_path with
  | some cmd => .ok cmd
  | none =>
    match env.visual with
    | some v => .ok v
    | none =>
      match env.editorVar with
      | some e => .ok e
      | none => .error (Error.from_string noEditorMessage)

/-- Embedding of `str::split(' ')`: pieces between single space characters,
with empty pieces kept; the empty string yields one empty piece. -/
def splitSpaces : List Char → List (List Char)
  | [] => [[]]
  | c :: cs =>
    if c = ' ' then [] :: splitSpaces cs
    else
      match splitSpaces cs with
      | [] => [[c]]
      | p :: ps => (c :: p) :: ps

/-- The process command assembled by `run_editor`: `Command::new(editor_args[0])`
with the remaining pieces as arguments. -/
structure Command where
  program : String
  args : List String
deriving DecidableEq

/-- Embedding of the command construction in `run_editor`: split the editor
string on single spaces, push the file path, take the first piece as the
program and the rest as arguments. -/
def run_editor_command (editor : String) (filePathStr : String) : Command :=
  let editor_args := (splitSpaces editor.data).map (fun p => String.mk p) ++ [filePathStr]
  { program := editor_args.headD "", args := editor_args.drop 1 }

/-- Embedding of the spawn-and-wait part of `run_editor`: the command built by
`run_editor_command editor filePathStr` is spawned; spawning either fails
(mapped to an `IoError`) or yields a child whose exit status, obtained by the
blocking `wait()`, is discarded. -/
def run_editor (editor : String) (filePathStr : String)
    (spawnResult : Except String Int) : Except Error Unit :=
  match spawnResult with
  | .error e => .error (Error.from_error "Failed to start editor process" e)
  | .ok _exitStatus => .ok ()

/-- Modelled from the spec: a local wall-clock datetime as produced by the
date/time capability (`chrono`), missing from `src/`: calendar fields plus the
local UTC offset in minutes. -/
structure DateTimeLocal where
  year : Nat
  month : Nat
  day : Nat
  hour : Nat
  minute : Nat
  second : Nat
  offsetMinutes : Int
deriving DecidableEq

/-- Modelled from the spec: `NaiveTime::default()`, midnight `00:00:00`. -/
def naiveTimeDefault : Nat × Nat × Nat := (0, 0, 0)

/-- Modelled from the spec: `Local::now().date().and_time(t)` keeps the
calendar date and the local offset and installs the given time of day. -/
def date_and_time (d : DateTimeLocal) (t : Nat × Nat × Nat) : DateTimeLocal :=
  { d with hour := t.1, minute := t.2.1, second := t.2.2 }

/-- Two-digit zero-padded decimal rendering. -/
def pad2 (n : Nat) : String := if n < 10 then "0" ++ toString n else toString n

/-- Four-digit zero-padded decimal rendering. -/
def pad4 (n : Nat) : String :=
  if n < 10 then "000" ++ toString n
  else if n < 100 then "00" ++ toString n
  else if n < 1000 then "0" ++ toString n
  else toString n

/-- Modelled from the spec: the numeric UTC-offset suffix `±hh:mm` of an
RFC 3339 timestamp. -/
def offsetString (m : Int) : String :=
  (if m < 0 then "-" else "+") ++ pad2 (m.natAbs / 60) ++ ":" ++ pad2 (m.natAbs % 60)

/-- Modelled from the spec: `DateTime::to_rfc3339`, the full timestamp
`yyyy-mm-ddThh:mm:ss±hh:mm`. -/
def to_rfc3339 (dt : DateTimeLocal) : String :=
  pad4 dt.year ++ "-" ++ pad2 dt.month ++ "-" ++ pad2 dt.day ++ "T" ++
    pad2 dt.hour ++ ":" ++ pad2 dt.minute ++ ":" ++ pad2 dt.second ++
    offsetString dt.offsetMinutes

/-- The parsed command-line arguments (`Arguments` in `src/main.rs`). -/
structure Arguments where
  title : String
  tags : List String
  editor : Option String
deriving DecidableEq

/-- All the external inputs of one run of `main`: the filesystem view, the
parsed arguments, the environment, the wall clock, and the outcomes of the
file write and of the process spawn. -/
structure World where
  fs : FsView
  args : Arguments
  env : Env
  now : DateTimeLocal
  writeResult : Except String Unit
  spawnResult : Except String Int
deriving DecidableEq

/-- The externally visible effects of a run: a file write with its path
(as components) and exact contents, or a process spawn of a command. -/
inductive Event where
  | wrote (path : List String) (contents : String)
  | spawned (cmd : Command)
deriving DecidableEq

/-- Rendering a component path the way `Path::as_os_str` shows it. -/
def pathToString (p : List String) : String := String.intercalate "/" p

/-- The date string `main` passes to `write_file_contents`:
`Local::now().date().and_time(NaiveTime::default())` rendered by `to_rfc3339`. -/
def mainDateString (w : World) : String :=
  to_rfc3339 (date_and_time w.now naiveTimeDefault)

/-- The path `content_dir.join(format!("{}.md", create_safe_file_name(title)))`
built by `main`. -/
def newFilePath (content_dir : List String) (title : String) : List String :=
  content_dir ++ [create_safe_file_name title ++ ".md"]

/-- Embedding of `main` from `src/main.rs`: locate the content directory, build
the new file path from the sanitized title, write the rendered front matter,
resolve the editor and run it; the first failure aborts the run.  Alongside
the result, the list of performed effects is returned in order. -/
def mainRun (w : World) : Except Error Unit × List Event :=
  match locate_content_directory w.fs with
  | .error e => (.error e, [])
  | .ok content_dir =>
    match w.writeResult with
    | .error e => (.error (Error.from_error "Failed to create file" e), [])
    | .ok _ =>
      match get_editor_command_string w.args.editor w.env with
      | .error e =>
        (.error e,
          [.wrote (newFilePath content_dir w.args.title)
            (file_contents w.args.title (mainDateString w) w.args.tags)])
      | .ok editor =>
        match run_editor editor (pathToString (newFilePath content_dir w.args.title))
            w.spawnResult with
        | .error e =>
          (.error e,
            [.wrote (newFilePath content_dir w.args.title)
              (file_contents w.args.title (mainDateString w) w.args.tags)])
        | .ok _ =>
          (.ok (),
            [.wrote (newFilePath content_dir w.args.title)
              (file_contents w.args.title (mainDateString w) w.args.tags),
             .spawned (run_editor_command editor
               (pathToString (newFilePath content_dir w.args.title)))])

/-- Whether the two-character separator `", "` occurs anywhere in the list. -/
def containsCommaSpace : List Char → Bool
  | [] => false
  | [_] => false
  | c1 :: c2 :: rest =>
    if c1 = ',' ∧ c2 = ' ' then true else containsCommaSpace (c2 :: rest)

/-- Split on every occurrence of the two-character separator `", "`, scanning
left to right. -/
def splitCommaSpace : List Char → List (List Char)
  | [] => [[]]
  | [c] => [[c]]
  | c1 :: c2 :: rest =>
    if c1 = ',' ∧ c2 = ' ' then [] :: splitCommaSpace rest
    else
      match splitCommaSpace (c2 :: rest) with
      | [] => [[c1]]
      | p :: ps => (c1 :: p) :: ps

/-- Strip a double quote from the front and from the back, when present. -/
def stripQuotes (l : List Char) : List Char :=
  let l1 := if l.head? = some dquoteChar then l.tail else l
  if l1.getLast? = some dquoteChar then l1.dropLast else l1

/-- Re-parse the interior of a rendered `tags = [...]` line, following the
spec's description: split on comma-and-space, strip the surrounding quotes. -/
def parseTags (content : List Char) : List (List Char) :=
  if content = [] then [] else (splitCommaSpace content).map stripQuotes

/-- String-level wrapper of `parseTags`. -/
def parseTagsLine (s : String) : List String :=
  (parseTags s.data).map String.mk

/-- Whether a raw child entry counts as a hit for the Locator: a readable
entry that is a directory and whose name is exactly `content`. -/
def isContentDirEntry (c : Except String DirEntry) : Bool :=
  match c with
  | .ok de => decide (de.name = "content" ∧ de.fileType = Except.ok true)
  | .error _ => false

/-- A current working directory itself named `content`, with no children. -/
def sampleFsContentCwd : FsView := ⟨.ok ["site", "content"], .ok []⟩

/-- A current working directory with an unreadable entry, a plain file, and a
directory named `content` among its children. -/
def sampleFsWithChild : FsView :=
  ⟨.ok ["home", "blog"],
   .ok [.error "unreadable", .ok ⟨"notes.txt", .ok false⟩, .ok ⟨"content", .ok true⟩]⟩

/-- A current working directory whose only child named `content` is not a
directory. -/
def sampleFsNoContent : FsView :=
  ⟨.ok ["home", "blog"],
   .ok [.ok ⟨"content", .ok false⟩, .error "unreadable", .ok ⟨"src", .ok true⟩]⟩

/-- A sample parsed command line. -/
def sampleArgs : Arguments := ⟨"My Post", ["rust", "cli"], some "vi -n"⟩

/-- A sample wall-clock instant (UTC offset +02:00). -/
def sampleNow : DateTimeLocal := ⟨2026, 10, 12, 13, 45, 59, 120⟩

/-- A run in which everything succeeds. -/
def sampleWorld : World :=
  ⟨sampleFsContentCwd, sampleArgs, ⟨none, none⟩, sampleNow, .ok (), .ok 0⟩

/-- A run in which the content directory cannot be located. -/
def sampleWorldNoContent : World :=
  ⟨sampleFsNoContent, sampleArgs, ⟨none, none⟩, sampleNow, .ok (), .ok 0⟩

/-! ### Helper lemmas -/

theorem splitSpaces_cons_space (cs : List Char) :
    splitSpaces (' ' :: cs) = [] :: splitSpaces cs := by
  simp [splitSpaces]

theorem splitSpaces_cons_nonspace {c : Char} {cs q : List Char} {qs : List (List Char)}
    (hc : ¬ c = ' ') (h : splitSpaces cs = q :: qs) :
    splitSpaces (c :: cs) = (c :: q) :: qs := by
  simp only [splitSpaces, if_neg hc, h]

theorem splitSpaces_ne_nil (l : List Char) : splitSpaces l ≠ [] := by
  induction l with
  | nil => simp [splitSpaces]
  | cons c cs ih =>
    cases hps : splitSpaces cs with
    | nil => exact absurd hps ih
    | cons q qs =>
      by_cases hc : c = ' '
      · subst hc; rw [splitSpaces_cons_space]; simp
      · rw [splitSpaces_cons_nonspace hc hps]; simp

theorem joinSep_space_splitSpaces (l : List Char) : joinSep [' '] (splitSpaces l) = l := by
  induction l with
  | nil => rfl
  | cons c cs ih =>
    cases hps : splitSpaces cs with
    | nil => exact absurd hps (splitSpaces_ne_nil cs)
    | cons p ps =>
      rw [hps] at ih
      by_cases hc : c = ' '
      · subst hc
        rw [splitSpaces_cons_space, hps]
        simpa [joinSep] using ih
      · rw [splitSpaces_cons_nonspace hc hps]
        cases ps with
        | nil => simp only [joinSep] at ih ⊢; rw [ih]
        | cons q qs =>
          simp only [joinSep] at ih ⊢
          rw [← ih]
          simp

theorem splitSpaces_no_space (l : List Char) :
    ∀ p ∈ splitSpaces l, ' ' ∉ p := by
  induction l with
  | nil => intro p hp; simp [splitSpaces] at hp; simp [hp]
  | cons c cs ih =>
    intro p hp
    cases hps : splitSpaces cs with
    | nil => exact absurd hps (splitSpaces_ne_nil cs)
    | cons q qs =>
      by_cases hc : c = ' '
      · subst hc
        rw [splitSpaces_cons_space, List.mem_cons] at hp
        rcases hp with rfl | hp
        · simp
        · exact ih p hp
      · rw [splitSpaces_cons_nonspace hc hps, List.mem_cons] at hp
        rcases hp with rfl | hp
        · intro hmem
          rcases List.mem_cons.mp hmem with h | h
          · exact hc h.symm
          · exact ih q (by rw [hps]; exact List.mem_cons_self q qs) h
        · exact ih p (by rw [hps]; exact List.mem_cons_of_mem q hp)

theorem removeUnsafeChars_eq_filter (l : List Char) :
    removeUnsafeChars l = l.filter (fun c => decide (c ∉ unsafeChars)) := by
  induction l with
  | nil => rfl
  | cons c cs ih =>
    by_cases hc : c ∈ unsafeChars
    · simp [removeUnsafeChars, hc, ih, List.filter]
    · simp [removeUnsafeChars, hc, ih, List.filter]

theorem mem_removeUnsafeChars {c : Char} {l : List Char}
    (h : c ∈ removeUnsafeChars l) : c ∉ unsafeChars := by
  rw [removeUnsafeChars_eq_filter] at h
  simpa using (List.mem_filter.mp h).2

theorem containsCommaSpace_cons₂ {c1 c2 : Char} {r : List Char}
    (h : ¬ (c1 = ',' ∧ c2 = ' ')) :
    containsCommaSpace (c1 :: c2 :: r) = containsCommaSpace (c2 :: r) := by
  simp only [containsCommaSpace, if_neg h]

theorem containsCommaSpace_dquote_cons (l : List Char) :
    containsCommaSpace (dquoteChar :: l) = containsCommaSpace l := by
  cases l with
  | nil => rfl
  | cons c r =>
    rw [containsCommaSpace_cons₂]
    rintro ⟨h1, _⟩
    exact absurd h1 (by decide)

theorem containsCommaSpace_append_dquote (l : List Char) :
    containsCommaSpace (l ++ [dquoteChar]) = containsCommaSpace l := by
  induction l with
  | nil => rfl
  | cons c cs ih =>
    cases cs with
    | nil =>
      have hc : ¬ (c = ',' ∧ dquoteChar = ' ') := by
        rintro ⟨_, h2⟩
        exact absurd h2 (by decide)
      simp only [List.cons_append, List.nil_append]
      rw [containsCommaSpace_cons₂ hc]
      rfl
    | cons c2 r =>
      by_cases h : c = ',' ∧ c2 = ' '
      · simp only [List.cons_append]
        simp [containsCommaSpace, h.1, h.2]
      · simp only [List.cons_append] at ih ⊢
        rw [containsCommaSpace_cons₂ h, containsCommaSpace_cons₂ h]
        exact ih

theorem containsCommaSpace_quote (t : List Char) :
    containsCommaSpace (quoteChars t) = containsCommaSpace t := by
  unfold quoteChars
  rw [containsCommaSpace_dquote_cons, containsCommaSpace_append_dquote]

theorem splitCommaSpace_cons_sep (b : List Char) :
    splitCommaSpace (',' :: ' ' :: b) = [] :: splitCommaSpace b := by
  simp [splitCommaSpace]

theorem splitCommaSpace_cons₂_of_split {c1 c2 : Char} {rest q : List Char}
    {qs : List (List Char)} (h : ¬ (c1 = ',' ∧ c2 = ' '))
    (hs : splitCommaSpace (c2 :: rest) = q :: qs) :
    splitCommaSpace (c1 :: c2 :: rest) = (c1 :: q) :: qs := by
  simp only [splitCommaSpace, if_neg h, hs]

theorem splitCommaSpace_no_sep {l : List Char} (h : containsCommaSpace l = false) :
    splitCommaSpace l = [l] := by
  induction l with
  | nil => rfl
  | cons c cs ih =>
    cases cs with
    | nil => rfl
    | cons c2 r =>
      have hne : ¬ (c = ',' ∧ c2 = ' ') := by
        intro hh
        rw [show containsCommaSpace (c :: c2 :: r) = true from by
          simp [containsCommaSpace, hh.1, hh.2]] at h
        simp at h
      have htail : containsCommaSpace (c2 :: r) = false := by
        rwa [containsCommaSpace_cons₂ hne] at h
      exact splitCommaSpace_cons₂_of_split hne (ih htail)

theorem splitCommaSpace_sep_append (a b : List Char)
    (h : containsCommaSpace a = false) :
    splitCommaSpace (a ++ ',' :: ' ' :: b) = a :: splitCommaSpace b := by
  induction a with
  | nil =>
    simp only [List.nil_append]
    exact splitCommaSpace_cons_sep b
  | cons c a' ih =>
    cases a' with
    | nil =>
      have hc : ¬ (c = ',' ∧ (',' : Char) = ' ') := by
        rintro ⟨_, h2⟩
        exact absurd h2 (by decide)
      simp only [List.cons_append, List.nil_append]
      exact splitCommaSpace_cons₂_of_split hc (splitCommaSpace_cons_sep b)
    | cons c2 a'' =>
      have hne : ¬ (c = ',' ∧ c2 = ' ') := by
        intro hh
        rw [show containsCommaSpace (c :: c2 :: a'') = true from by
          simp [containsCommaSpace, hh.1, hh.2]] at h
        simp at h
      have htail : containsCommaSpace (c2 :: a'') = false := by
        rwa [containsCommaSpace_cons₂ hne] at h
      have ih' := ih htail
      simp only [List.cons_append] at ih' ⊢
      exact splitCommaSpace_cons₂_of_split hne ih'

theorem stripQuotes_quote (t : List Char) : stripQuotes (quoteChars t) = t := by
  simp [stripQuotes, quoteChars, List.getLast?_concat, List.dropLast_concat]

theorem renderTagsChars_ne_nil (t : List Char) (ts : List (List Char)) :
    renderTagsChars (t :: ts) ≠ [] := by
  cases ts with
  | nil => simp [renderTagsChars, joinSep, quoteChars]
  | cons t2 ts' => simp [renderTagsChars, joinSep, quoteChars]

theorem parseTags_renderTagsChars (tags : List (List Char))
    (h : ∀ t ∈ tags, containsCommaSpace t = false) :
    parseTags (renderTagsChars tags) = tags := by
  induction tags with
  | nil => rfl
  | cons t ts ih =>
    have ht := h t (List.mem_cons_self t ts)
    have hq : containsCommaSpace (quoteChars t) = false := by
      rw [containsCommaSpace_quote]; exact ht
    cases ts with
    | nil =>
      have hone : renderTagsChars [t] = quoteChars t := by
        simp [renderTagsChars, joinSep]
      have hne : quoteChars t ≠ [] := by simp [quoteChars]
      rw [hone, parseTags, if_neg hne, splitCommaSpace_no_sep hq]
      simp [stripQuotes_quote]
    | cons t2 ts' =>
      have hrest : ∀ u ∈ t2 :: ts', containsCommaSpace u = false :=
        fun u hu => h u (List.mem_cons_of_mem t hu)
      have ih' := ih hrest
      have hren : renderTagsChars (t :: t2 :: ts')
          = quoteChars t ++ ',' :: ' ' :: renderTagsChars (t2 :: ts') := by
        simp [renderTagsChars, joinSep, sepChars]
      have hne : quoteChars t ++ ',' :: ' ' :: renderTagsChars (t2 :: ts') ≠ [] := by
        simp [quoteChars]
      have hne2 : renderTagsChars (t2 :: ts') ≠ [] := renderTagsChars_ne_nil t2 ts'
      rw [parseTags, if_neg hne2] at ih'
      rw [hren, parseTags, if_neg hne,
        splitCommaSpace_sep_append (quoteChars t) (renderTagsChars (t2 :: ts')) hq]
      simp only [List.map_cons, stripQuotes_quote, ih']

theorem intercalate_go_data (s : String) (as : List String) (acc : String) :
    (String.intercalate.go acc s as).data
      = acc.data ++ (as.map (fun a => s.data ++ a.data)).flatten := by
  induction as generalizing acc with
  | nil => simp [String.intercalate.go]
  | cons a as ih =>
    rw [String.intercalate.go, ih]
    simp [List.append_assoc]

theorem joinSep_eq_flatten (sep x : List Char) (xs : List (List Char)) :
    joinSep sep (x :: xs) = x ++ (xs.map (fun a => sep ++ a)).flatten := by
  induction xs generalizing x with
  | nil => simp [joinSep]
  | cons y ys ih =>
    simp only [joinSep, List.map_cons, List.flatten_cons, ih y]
    simp [List.append_assoc]

theorem intercalate_cons_data (s a : String) (as : List String) :
    (String.intercalate s (a :: as)).data
      = a.data ++ (as.map (fun x => s.data ++ x.data)).flatten := by
  have h : String.intercalate s (a :: as) = String.intercalate.go a s as := rfl
  rw [h, intercalate_go_data]

theorem renderTags_eq_intercalate (tags : List String) :
    renderTags tags
      = String.intercalate ", " (tags.map (fun s => dquoteStr ++ s ++ dquoteStr)) := by
  cases tags with
  | nil =>
    apply String.ext
    simp [renderTags, renderTagsChars, joinSep, String.intercalate]
  | cons t ts =>
    apply String.ext
    rw [List.map_cons, intercalate_cons_data]
    show renderTagsChars (List.map String.data (t :: ts)) = _
    have lhs_eq : renderTagsChars (List.map String.data (t :: ts))
        = quoteChars t.data ++ (ts.map (fun s => sepChars ++ quoteChars s.data)).flatten := by
      simp only [renderTagsChars, List.map_cons]
      rw [joinSep_eq_flatten, List.map_map, List.map_map]
      rfl
    have hhead : (dquoteStr ++ t ++ dquoteStr).data = quoteChars t.data := by
      simp [quoteChars, dquoteStr]
    have hf : ((fun x : String => (", " : String).data ++ x.data)
          ∘ fun s => dquoteStr ++ s ++ dquoteStr)
        = fun s : String => sepChars ++ quoteChars s.data := by
      funext s
      show (", " : String).data ++ (dquoteStr ++ s ++ dquoteStr).data
        = sepChars ++ quoteChars s.data
      rw [show (", " : String).data = sepChars from rfl]
      simp [quoteChars, dquoteStr, sepChars]
    have htail : ((ts.map (fun s => dquoteStr ++ s ++ dquoteStr)).map
          (fun x => (", " : String).data ++ x.data)).flatten
        = (ts.map (fun s => sepChars ++ quoteChars s.data)).flatten := by
      rw [List.map_map, hf]
    rw [lhs_eq]
    exact (congrArg₂ (fun a b => a ++ b) hhead htail).symm

theorem keepOkDir_some {c : Except String DirEntry} {de : DirEntry}
    (h : keepOkDir c = some de) : c = .ok de ∧ de.fileType = .ok true := by
  cases c with
  | error e => simp [keepOkDir] at h
  | ok de' =>
    cases hft : de'.fileType with
    | error e => simp [keepOkDir, hft] at h
    | ok isDir =>
      cases isDir with
      | false => simp [keepOkDir, hft] at h
      | true =>
        simp [keepOkDir, hft] at h
        subst h
        exact ⟨rfl, hft⟩

theorem find_content_of_exists {children : List (Except String DirEntry)}
    (h : ∃ c ∈ children, isContentDirEntry c = true) :
    ∃ de, (children.filterMap keepOkDir).find? (fun de => de.name = "content") = some de
      ∧ de.name = "content" := by
  obtain ⟨c, hcmem, hc⟩ := h
  obtain ⟨de0, rfl, hname, hft⟩ :
      ∃ de0, c = Except.ok de0 ∧ de0.name = "content" ∧ de0.fileType = Except.ok true := by
    cases c with
    | error e => simp [isContentDirEntry] at hc
    | ok de0 =>
      simp only [isContentDirEntry, decide_eq_true_eq] at hc
      exact ⟨de0, rfl, hc.1, hc.2⟩
  have hmem : de0 ∈ children.filterMap keepOkDir := by
    rw [List.mem_filterMap]
    exact ⟨Except.ok de0, hcmem, by simp [keepOkDir, hft]⟩
  have hsome : ((children.filterMap keepOkDir).find? (fun de => de.name = "content")).isSome := by
    rw [List.find?_isSome]
    exact ⟨de0, hmem, by simp [hname]⟩
  obtain ⟨de, hde⟩ := Option.isSome_iff_exists.mp hsome
  refine ⟨de, hde, ?_⟩
  have := List.find?_some hde
  simpa using this

theorem find_content_none {children : List (Except String DirEntry)}
    (h : ∀ c ∈ children, isContentDirEntry c = false) :
    (children.filterMap keepOkDir).find? (fun de => de.name = "content") = none := by
  rw [List.find?_eq_none]
  intro de hde hp
  obtain ⟨c, hcmem, hkeep⟩ := List.mem_filterMap.mp hde
  obtain ⟨rfl, hft⟩ := keepOkDir_some hkeep
  have hfalse := h (Except.ok de) hcmem
  have hname : de.name = "content" := by simpa using hp
  simp [isContentDirEntry, hname, hft] at hfalse

theorem mainRun_writes_shape (w : World) :
    (mainRun w).2 = [] ∨
    ∃ dir rest, locate_content_directory w.fs = .ok dir ∧
      (mainRun w).2 = Event.wrote (newFilePath dir w.args.title)
          (file_contents w.args.title (mainDateString w) w.args.tags) :: rest ∧
      (∀ p' c', Event.wrote p' c' ∉ rest) := by
  cases hloc : locate_content_directory w.fs with
  | error e => left; simp [mainRun, hloc]
  | ok dir =>
    cases hwr : w.writeResult with
    | error e => left; simp [mainRun, hloc, hwr]
    | ok u =>
      right
      cases hed : get_editor_command_string w.args.editor w.env with
      | error e =>
        exact ⟨dir, [], rfl, by simp [mainRun, hloc, hwr, hed], by simp⟩
      | ok ed =>
        cases hsp : w.spawnResult with
        | error e =>
          refine ⟨dir, [], rfl, ?_, by simp⟩
          simp [mainRun, hloc, hwr, hed, run_editor, hsp]
        | ok st =>
          refine ⟨dir,
            [Event.spawned (run_editor_command ed
              (pathToString (newFilePath dir w.args.title)))], rfl, ?_, by simp⟩
          simp [mainRun, hloc, hwr, hed, run_editor, hsp]

/-! ### Claims -/

/-- Counterexample to C1 as stated: already at title `a`, date string `d` and
no tags, the rendered document is not the claimed text that ends at the final
`+++` with nothing after it — the template emits one more newline. -/
theorem claim_C1_counterexample :
    file_contents "a" "d" []
      ≠ "+++\ntitle = " ++ dquoteStr ++ "a" ++ dquoteStr ++
          "\ndate = d\n[taxonomies]\ntags = []\n+++" := by
  decide

/-- C1 (amended): the rendered document is exactly `+++`, newline,
`title = "<title>"` with the raw title verbatim, newline, `date = <date>`,
newline, `[taxonomies]`, newline, `tags = [...]` with each tag individually
double-quoted and the list comma-and-space joined (the empty sequence giving
`tags = []`), newline, `+++`, and a final newline — and nothing else. -/
theorem claim_C1_front_matter (title dateStr : String) (tags : List String) :
    file_contents title dateStr tags
      = "+++" ++ "\n" ++ "title = " ++ dquoteStr ++ title ++ dquoteStr ++ "\n" ++
        "date = " ++ dateStr ++ "\n" ++ "[taxonomies]" ++ "\n" ++
        "tags = [" ++
        String.intercalate ", " (tags.map (fun s => dquoteStr ++ s ++ dquoteStr)) ++
        "]" ++ "\n" ++ "+++" ++ "\n" := by
  rw [file_contents, renderTags_eq_intercalate]
  rw [show ("+++\ntitle = " : String) = "+++" ++ "\n" ++ "title = " from rfl]
  rw [show ("\ndate = " : String) = "\n" ++ "date = " from rfl]
  rw [show ("\n[taxonomies]\ntags = [" : String)
      = "\n" ++ "[taxonomies]" ++ "\n" ++ "tags = [" from rfl]
  rw [show ("]\n+++\n" : String) = "]" ++ "\n" ++ "+++" ++ "\n" from rfl]
  simp [String.append_assoc]

/-- C4: every file write of a run goes to
`<content_directory>/<sanitized_title>.md`; the sanitized title is the title
with every occurrence of the four unsafe characters removed and every other
character kept in order (a filter), the resulting file name contains none of
the four characters, and the write is unique. -/
theorem claim_C4_output_path (w : World) (p : List String) (c : String)
    (hw : Event.wrote p c ∈ (mainRun w).2) :
    ∃ dir, locate_content_directory w.fs = .ok dir ∧
      p = dir ++ [create_safe_file_name w.args.title ++ ".md"] ∧
      (create_safe_file_name w.args.title).data
        = w.args.title.data.filter (fun ch => decide (ch ∉ unsafeChars)) ∧
      (∀ ch ∈ (create_safe_file_name w.args.title ++ ".md").data, ch ∉ unsafeChars) ∧
      ∀ p' c', Event.wrote p' c' ∈ (mainRun w).2 → p' = p ∧ c' = c := by
  have hsafe : ∀ ch ∈ (create_safe_file_name w.args.title ++ ".md").data,
      ch ∉ unsafeChars := by
    intro ch hch
    rw [String.data_append] at hch
    rcases List.mem_append.mp hch with hch | hch
    · exact mem_removeUnsafeChars hch
    · rw [show (".md" : String).data = ['.', 'm', 'd'] from rfl] at hch
      rcases hch with _ | ⟨_, _ | ⟨_, _ | ⟨_, h⟩⟩⟩
      · decide
      · decide
      · decide
      · cases h
  rcases mainRun_writes_shape w with hnil | ⟨dir, rest, hloc, hsnd, hrest⟩
  · rw [hnil] at hw; simp at hw
  · rw [hsnd] at hw
    rcases List.mem_cons.mp hw with heq | hmem
    · injection heq with hp hc
      refine ⟨dir, hloc, ?_, removeUnsafeChars_eq_filter _, hsafe, ?_⟩
      · rw [hp]; rfl
      · intro p' c' hw'
        rw [hsnd] at hw'
        rcases List.mem_cons.mp hw' with heq' | hmem'
        · injection heq' with hp' hc'
          exact ⟨hp'.trans hp.symm, hc'.trans hc.symm⟩
        · exact absurd hmem' (hrest p' c')
    · exact absurd hmem (hrest p c)

/-- Witness for C4 at a fully successful concrete run. -/
theorem claim_C4_output_path_witness :
    ∃ dir, locate_content_directory sampleWorld.fs = .ok dir ∧
      ["site", "content", "My Post.md"]
          = dir ++ [create_safe_file_name sampleWorld.args.title ++ ".md"] ∧
      (create_safe_file_name sampleWorld.args.title).data
        = sampleWorld.args.title.data.filter (fun ch => decide (ch ∉ unsafeChars)) ∧
      (∀ ch ∈ (create_safe_file_name sampleWorld.args.title ++ ".md").data,
        ch ∉ unsafeChars) ∧
      ∀ p' c', Event.wrote p' c' ∈ (mainRun sampleWorld).2 →
        p' = ["site", "content", "My Post.md"] ∧
        c' = file_contents "My Post" (mainDateString sampleWorld) ["rust", "cli"] :=
  claim_C4_output_path sampleWorld ["site", "content", "My Post.md"]
    (file_contents "My Post" (mainDateString sampleWorld) ["rust", "cli"]) (by decide)

/-- C2: given a readable current working directory, the Locator returns the
directory itself when its own name is exactly `content` (regardless of its
children); otherwise, when the children can be enumerated and some child entry
is a readable directory named exactly `content`, it returns the path of that
child of the current directory. -/
theorem claim_C2_locator_success (fs : FsView) (path : List String)
    (hcwd : fs.cwdResult = .ok path) :
    (path.getLast? = some "content" → locate_content_directory fs = .ok path) ∧
    (¬ path.getLast? = some "content" →
      ∀ children, fs.readDirResult = .ok children →
        (∃ c ∈ children, isContentDirEntry c = true) →
        locate_content_directory fs = .ok (path ++ ["content"])) := by
  constructor
  · intro hname
    simp [locate_content_directory, hcwd, hname]
  · intro hname children hrd hex
    obtain ⟨de, hfind, hdename⟩ := find_content_of_exists hex
    simp only [locate_content_directory, hcwd, hrd, if_neg hname, hfind, hdename]

/-- Witness for C2 at concrete filesystems: a cwd named `content`, and a cwd
containing a directory child named `content` behind a plain file and an
unreadable entry. -/
theorem claim_C2_locator_success_witness :
    locate_content_directory sampleFsContentCwd = .ok ["site", "content"] ∧
    locate_content_directory sampleFsWithChild = .ok (["home", "blog"] ++ ["content"]) :=
  ⟨(claim_C2_locator_success sampleFsContentCwd ["site", "content"] rfl).1 (by decide),
   (claim_C2_locator_success sampleFsWithChild ["home", "blog"] rfl).2 (by decide)
     [.error "unreadable", .ok ⟨"notes.txt", .ok false⟩, .ok ⟨"content", .ok true⟩] rfl
     ⟨.ok ⟨"content", .ok true⟩, by decide, by decide⟩⟩

/-- C3: when the current working directory is not named `content` and no child
entry is a readable directory named `content` (a non-directory child named
`content` does not count), the Locator fails with the not-found error whose
message names `content`, and the run performs no write. -/
theorem claim_C3_locator_not_found (w : World) (path : List String)
    (children : List (Except String DirEntry))
    (hcwd : w.fs.cwdResult = .ok path)
    (hname : ¬ path.getLast? = some "content")
    (hrd : w.fs.readDirResult = .ok children)
    (hnone : ∀ c ∈ children, isContentDirEntry c = false) :
    locate_content_directory w.fs = .error (Error.notFoundError contentNotFoundMessage) ∧
    "content".data <:+: contentNotFoundMessage.data ∧
    (mainRun w).2 = [] := by
  have hloc : locate_content_directory w.fs
      = .error (Error.notFoundError contentNotFoundMessage) := by
    simp only [locate_content_directory, hcwd, hrd, if_neg hname, find_content_none hnone]
    rfl
  refine ⟨hloc, by decide, ?_⟩
  simp only [mainRun, hloc]

/-- Witness for C3 at a concrete filesystem whose only child named `content`
is a plain file. -/
theorem claim_C3_locator_not_found_witness :
    locate_content_directory sampleWorldNoContent.fs
        = .error (Error.notFoundError contentNotFoundMessage) ∧
    "content".data <:+: contentNotFoundMessage.data ∧
    (mainRun sampleWorldNoContent).2 = [] :=
  claim_C3_locator_not_found sampleWorldNoContent ["home", "blog"]
    [.ok ⟨"content", .ok false⟩, .error "unreadable", .ok ⟨"src", .ok true⟩]
    rfl (by decide) rfl (by decide)

/-- C5: editor resolution precedence: an explicit flag value wins and the
environment is never consulted; otherwise `VISUAL` when available; otherwise
`EDITOR` when available; otherwise a not-found error. -/
theorem claim_C5_editor_resolution (cmd v e : String) :
    (∀ env : Env, get_editor_command_string (some cmd) env = .ok cmd) ∧
    (∀ ev : Option String, get_editor_command_string none ⟨some v, ev⟩ = .ok v) ∧
    get_editor_command_string none ⟨none, some e⟩ = .ok e ∧
    get_editor_command_string none ⟨none, none⟩
      = .error (Error.notFoundError noEditorMessage) :=
  ⟨fun _ => rfl, fun _ => rfl, rfl, rfl⟩

/-- C6: the launcher splits the resolved editor string on single space
characters — the pieces contain no space and joining them back with single
spaces restores the string — takes the first piece as the program and the
rest as arguments, and appends the file path as the final argument. -/
theorem claim_C6_command_split (editor filePathStr : String) :
    (run_editor_command editor filePathStr).program
        :: (run_editor_command editor filePathStr).args
      = (splitSpaces editor.data).map String.mk ++ [filePathStr] ∧
    joinSep [' '] (splitSpaces editor.data) = editor.data ∧
    (∀ piece ∈ splitSpaces editor.data, ' ' ∉ piece) ∧
    (run_editor_command editor filePathStr).args.getLast? = some filePathStr := by
  obtain ⟨q, qs, hqs⟩ : ∃ q qs, splitSpaces editor.data = q :: qs := by
    cases h : splitSpaces editor.data with
    | nil => exact absurd h (splitSpaces_ne_nil _)
    | cons q qs => exact ⟨q, qs, rfl⟩
  refine ⟨?_, joinSep_space_splitSpaces _, splitSpaces_no_space _, ?_⟩
  · simp [run_editor_command, hqs]
  · simp [run_editor_command, hqs, List.getLast?_concat]

/-- C7: the launcher reports success for every exit status of the editor and
an error exactly when spawning fails; a run's outcome does not depend on the
editor's exit status. -/
theorem claim_C7_spawn_semantics (editor filePathStr : String) (w : World) :
    (∀ status : Int, run_editor editor filePathStr (.ok status) = .ok ()) ∧
    (∀ msg : String, run_editor editor filePathStr (.error msg)
        = .error (Error.ioError ("Failed to start editor process: " ++ msg))) ∧
    (∀ s1 s2 : Int,
      mainRun { w with spawnResult := .ok s1 }
        = mainRun { w with spawnResult := .ok s2 }) := by
  refine ⟨fun _ => rfl, fun _ => rfl, fun s1 s2 => ?_⟩
  simp [mainRun, run_editor, mainDateString]

/-- C8: the date written by a run is the local wall-clock date with the time
of day zeroed to midnight, rendered as a full RFC 3339 timestamp: the date
part, then `T00:00:00`, then the local UTC-offset suffix. -/
theorem claim_C8_midnight_timestamp (w : World) :
    mainDateString w
      = pad4 w.now.year ++ "-" ++ pad2 w.now.month ++ "-" ++ pad2 w.now.day
          ++ "T00:00:00" ++ offsetString w.now.offsetMinutes := by
  have hlit : ("T" : String) ++ "00" ++ ":" ++ "00" ++ ":" ++ "00" = "T00:00:00" := by
    decide
  have h1 : pad4 w.now.year ++ "-" ++ pad2 w.now.month ++ "-" ++ pad2 w.now.day
        ++ "T" ++ "00" ++ ":" ++ "00" ++ ":" ++ "00"
      = pad4 w.now.year ++ "-" ++ pad2 w.now.month ++ "-" ++ pad2 w.now.day
        ++ "T00:00:00" := by
    calc pad4 w.now.year ++ "-" ++ pad2 w.now.month ++ "-" ++ pad2 w.now.day
          ++ "T" ++ "00" ++ ":" ++ "00" ++ ":" ++ "00"
        = pad4 w.now.year ++ "-" ++ pad2 w.now.month ++ "-" ++ pad2 w.now.day
          ++ ("T" ++ "00" ++ ":" ++ "00" ++ ":" ++ "00") := by
          simp [String.append_assoc]
      _ = pad4 w.now.year ++ "-" ++ pad2 w.now.month ++ "-" ++ pad2 w.now.day
          ++ "T00:00:00" := by rw [hlit]
  have h2 : mainDateString w
      = pad4 w.now.year ++ "-" ++ pad2 w.now.month ++ "-" ++ pad2 w.now.day
        ++ "T" ++ pad2 0 ++ ":" ++ pad2 0 ++ ":" ++ pad2 0
        ++ offsetString w.now.offsetMinutes := rfl
  rw [h2, show pad2 0 = "00" from rfl]
  exact congrArg (fun x => x ++ offsetString w.now.offsetMinutes) h1

/-- Counterexample to C9 as stated: the single-tag sequence whose tag is the
two-character string comma-space renders to a list whose re-parse yields two
empty strings, not the original sequence. -/
theorem claim_C9_counterexample :
    parseTagsLine (renderTags [", "]) ≠ [", "] := by decide

/-- C9 (amended): for every sequence of tag strings in which no tag contains
the two-character separator comma-space, rendering the `tags = [...]` list
and re-parsing it (splitting on comma-and-space and stripping the surrounding
double quotes) recovers exactly the original sequence in the original
order. -/
theorem claim_C9_tags_roundtrip (tags : List String)
    (h : ∀ t ∈ tags, containsCommaSpace t.data = false) :
    parseTagsLine (renderTags tags) = tags := by
  have hcontains : ∀ t ∈ tags.map String.data, containsCommaSpace t = false := by
    intro t ht
    obtain ⟨s, hs, rfl⟩ := List.mem_map.mp ht
    exact h s hs
  unfold parseTagsLine renderTags
  rw [show (String.mk (renderTagsChars (tags.map String.data))).data
      = renderTagsChars (tags.map String.data) from rfl]
  rw [parseTags_renderTagsChars (tags.map String.data) hcontains]
  rw [List.map_map]
  show List.map id tags = tags
  exact List.map_id tags

/-- Witness for C9 at the concrete tag sequence of the spec's end-to-end
example. -/
theorem claim_C9_tags_roundtrip_witness :
    parseTagsLine (renderTags ["rust", "cli"]) = ["rust", "cli"] :=
  claim_C9_tags_roundtrip ["rust", "cli"] (by decide)

/-- C10: with no flag, `VISUAL` present but empty and `EDITOR` present and
non-empty, resolution succeeds with the empty string — the set-but-empty
`VISUAL` shadows `EDITOR` — and the launcher then builds a command whose
program name is empty. -/
theorem claim_C10_empty_visual (e filePathStr : String) (he : e ≠ "") :
    get_editor_command_string none ⟨some "", some e⟩ = .ok "" ∧
    (run_editor_command "" filePathStr).program = "" := by
  exact ⟨rfl, rfl⟩

/-- Witness for C10 at a concrete environment and file path. -/
theorem claim_C10_empty_visual_witness :
    get_editor_command_string none ⟨some "", some "ed"⟩ = .ok "" ∧
    (run_editor_command "" "/home/blog/content/My Post.md").program = "" :=
  claim_C10_empty_visual "ed" "/home/blog/content/My Post.md" (by decide)

end NewPost
